import Mathlib

/-!
Verification of the executor-side task-group runner (`driver/task_runner.go`).

The development shallowly embeds the runner:
* Go strings handled character-by-character are `List Char`; derived channel
  names are `String`.
* The netchan / plan collaborators are oracles (function-valued parameters).
* Machine effects (endpoint-resolution calls, spawned background units,
  executor-status writes) are threaded through an explicit `WState` record;
  `log.Panic` and Go runtime panics surface as an `Option String` error
  component.
* The concurrent `Run` (WaitGroup, goroutines, timestamps) is additionally
  modelled as a small-step transition system `Step` over states `CS`.
-/

namespace TaskRunner

/-- Go `strings.Split(s, sep)` for a one-character separator, on character
lists: the list of (possibly empty) segments of `s` between occurrences of
`sep`.  `strings.Split("", sep) = [""]` is matched by `splitChars sep [] = [[]]`. -/
def splitChars (sep : Char) : List Char → List (List Char)
  | [] => [[]]
  | c :: rest =>
    if c = sep then
      [] :: splitChars sep rest
    else
      match splitChars sep rest with
      | t :: ts => (c :: t) :: ts
      | [] => [[c]]

/-- Go map assignment `m[k] = v`: replace the binding of `k` if present,
otherwise add it. -/
def mapUpsert : List (String × String) → String → String → List (String × String)
  | [], k, v => [(k, v)]
  | (k', v') :: rest, k, v =>
    if k' = k then (k, v) :: rest else (k', v') :: mapUpsert rest k v

/-- Go map read `m[k]` with the string zero value `""` for a missing key. -/
def mapGet (m : List (String × String)) (k : String) : String :=
  match m.find? (fun p => p.1 == k) with
  | some p => p.2
  | none => ""

/-- The Go runtime's message for an out-of-range slice index. -/
def idxPanic : String := "runtime error: index out of range"

/-- The loop body of the name-to-location parsing in
`connectInputsAndOutputs`: for each comma token, `nl := strings.Split(tok, "@")`
and `m[nl[0]] = nl[1]`; a token whose split has fewer than two pieces panics
at `nl[1]`. -/
def parseLoop : List (List Char) → List (String × String) →
    Except String (List (String × String))
  | [], m => .ok m
  | tok :: rest, m =>
    match splitChars '@' tok with
    | k :: v :: _ => parseLoop rest (mapUpsert m ⟨k⟩ ⟨v⟩)
    | _ => .error idxPanic

/-- The name-to-location mapping derived from `TaskOption.Inputs`
(`task_runner.go` lines 76–82): nothing is parsed when the string is empty;
otherwise the string is split on `","` and each token on `"@"`. -/
def parseInputs (s : List Char) : Except String (List (String × String)) :=
  if s = [] then .ok [] else parseLoop (splitChars ',' s) []

/-- Abstract raw (wire-level) channel handle produced by netchan resolution. -/
abbrev RawChan := Nat

/-- Abstract typed (`chan reflect.Value`) channel handle. -/
abbrev TypedChan := Nat

/-- Abstract `util.ChannelStatus` handle returned by the netchan connectors. -/
abbrev ChannelStatus := Nat

/-- Abstract `reflect.Type` descriptor of a dataset. -/
abbrev TypeDesc := Nat

/-- `flow.Dataset`, restricted to the fields `task_runner.go` reads:
its id, its value type, and its declared external input channels (of which
only the count is used, via `for i, _ := range ds.ExternalInputChans`). -/
structure Dataset where
  id : Int
  dsType : TypeDesc
  externalInputChans : Nat
deriving DecidableEq, Repr

/-- `flow.DatasetShard`, restricted to the fields used: its derived name
(`shard.Name()`), its parent dataset, and its typed `WriteChan`. -/
structure DatasetShard where
  name : String
  parent : Dataset
  writeChan : TypedChan
deriving DecidableEq, Repr

/-- `flow.Task`, restricted to the fields used: input shards, output shards,
and the typed input channels parallel to the input shards.  A nil Go slice is
the empty list. -/
structure Task where
  inputs : List DatasetShard
  outputs : List DatasetShard
  inputChans : List TypedChan
deriving DecidableEq, Repr

/-- `driver.TaskOption`: the fields `task_runner.go` reads. -/
structure TaskOption where
  contextId : Int
  taskGroupId : Int
  executableFileHash : String
  inputs : List Char
  channelBufferSize : Nat
deriving DecidableEq, Repr

/-- `flow.FlowContext`, restricted to the fields used: its id and its
channel buffer size (the one field `Run` writes). -/
structure FlowContext where
  id : Int
  channelBufferSize : Nat
deriving DecidableEq, Repr

/-- `driver.ExecutorStatus`: per-input channel statuses, the single output
channel status, and the three timestamps (unset = `none`). -/
structure ExecutorStatus where
  inputChannelStatuses : List ChannelStatus
  outputChannelStatus : Option ChannelStatus
  readyTime : Option Nat
  startTime : Option Nat
  stopTime : Option Nat
deriving DecidableEq, Repr

/-- One endpoint-resolution request issued to the netchan collaborator. -/
inductive CallReq where
  | directRead (name : String) (location : String) (bufferSize : Nat)
  | localRead (name : String) (bufferSize : Nat)
  | localSend (name : String)
deriving DecidableEq, Repr

/-- A logged resolution call: the request plus the error it returned, if any. -/
structure CallRec where
  req : CallReq
  err : Option String
deriving DecidableEq, Repr

/-- A background unit spawned during wiring: an internal forwarding goroutine
for the hop out of stage `i`, a decoding adapter for a true-source external
input channel, a decoding adapter for a first-stage external data input, or an
encoding adapter for a last-stage external output. -/
inductive UnitKind where
  | forwarder (i : Nat)
  | sourceAdapter (chanName : String)
  | inputAdapter (chanName : String)
  | encodeAdapter (chanName : String)
deriving DecidableEq, Repr

/-- Whether a unit is an internal forwarding goroutine. -/
def UnitKind.isForwarder : UnitKind → Bool
  | .forwarder _ => true
  | _ => false

/-- Whether a unit is a raw→typed decoding adapter (either external phase). -/
def UnitKind.isDecodeAdapter : UnitKind → Bool
  | .sourceAdapter _ => true
  | .inputAdapter _ => true
  | _ => false

/-- Whether a unit is a typed→raw encoding adapter. -/
def UnitKind.isEncodeAdapter : UnitKind → Bool
  | .encodeAdapter _ => true
  | _ => false

/-- The mutable state threaded through the wiring phases: the runner's
`ExecutorStatus`, the log of resolution calls, the background units spawned
(each of which does `wg.Add(1)`), the typed channels appended to the first
task's `InputChans` by the external-input-channel phase, and a counter
supplying fresh typed-channel handles for `make(chan reflect.Value)`. -/
structure WState where
  status : ExecutorStatus
  calls : List CallRec
  spawned : List UnitKind
  firstInputChans : List TypedChan
  nextChanId : Nat
deriving DecidableEq, Repr

/-- The wiring state at the start of `connectInputsAndOutputs`. -/
def initW (es : ExecutorStatus) : WState := ⟨es, [], [], [], 0⟩

/-- The netchan collaborator (`netchan` package), as an oracle: the three
fallible endpoint resolutions and the two adapter connectors.  The connectors
spawn background decode/encode loops; those spawns are logged by the wiring
code at each call site. -/
structure NetchanOracle where
  getDirectReadChannel : String → String → Nat → Except String RawChan
  getLocalReadChannel : String → Nat → Except String RawChan
  getLocalSendChannel : String → Except String RawChan
  connectRawReadChannelToTyped : RawChan → TypedChan → TypeDesc → ChannelStatus
  connectTypedWriteChannelToRaw : TypedChan → RawChan → ChannelStatus

/-- Boundary channel name `tr.option.ExecutableFileHash + "-" + shard.Name()`
(`task_runner.go` lines 117 and 151). -/
def boundaryChanName (hash : String) (shardName : String) : String :=
  hash ++ "-" ++ shardName

/-- True-source external-input channel name
`fmt.Sprintf("%s-ct-%d-input-%d-p-%d", hash, contextId, datasetId, i)`
(`task_runner.go` line 136). -/
def sourceInputChanName (hash : String) (contextId : Int) (datasetId : Int)
    (i : Nat) : String :=
  hash ++ "-ct-" ++ toString contextId ++ "-input-" ++ toString datasetId ++
    "-p-" ++ toString i

/-- Short-circuiting sequencing of wiring phases: a panic aborts the rest. -/
def bindW (r : WState × Option String) (f : WState → WState × Option String) :
    WState × Option String :=
  match r with
  | (w, some e) => (w, some e)
  | (w, none) => f w

/-- Loop body of `connectExternalInputChannels` (lines 134–143): for each
index `i` of the dataset's external input channels, derive the source-input
name, resolve a local read channel (a failure is `log.Panic`ed), make a fresh
typed channel, connect it through a decoding adapter (spawned; registered with
the tracker), record the adapter's status, and append the typed channel to the
first task's input channels. -/
def p1Loop (orc : NetchanOracle) (opt : TaskOption) (fc : FlowContext)
    (ds : Dataset) : List Nat → WState → WState × Option String
  | [], w => (w, none)
  | i :: rest, w =>
    let name := sourceInputChanName opt.executableFileHash opt.contextId ds.id i
    match orc.getLocalReadChannel name fc.channelBufferSize with
    | .error e => ({ w with calls := w.calls ++ [⟨.localRead name fc.channelBufferSize, some e⟩] }, some e)
    | .ok raw =>
      let typedChan := w.nextChanId
      let st := orc.connectRawReadChannelToTyped raw typedChan ds.dsType
      p1Loop orc opt fc ds rest
        { w with
          status := { w.status with
            inputChannelStatuses := w.status.inputChannelStatuses ++ [st] }
          calls := w.calls ++ [⟨.localRead name fc.channelBufferSize, none⟩]
          spawned := w.spawned ++ [.sourceAdapter name]
          firstInputChans := w.firstInputChans ++ [typedChan]
          nextChanId := w.nextChanId + 1 }

/-- Phase 1, `connectExternalInputChannels` (lines 128–146): returns at once
when the first task has input shards (`firstTask.Inputs != nil`); otherwise
iterates over the external input channels of the first task's first output's
parent dataset (`firstTask.Outputs[0]` panics when there is no output). -/
def connectExternalInputChannels (orc : NetchanOracle) (opt : TaskOption)
    (fc : FlowContext) (tasks : List Task) (w : WState) :
    WState × Option String :=
  match tasks with
  | [] => (w, some idxPanic)
  | firstTask :: _ =>
    if firstTask.inputs ≠ [] then (w, none)
    else
      match firstTask.outputs with
      | [] => (w, some idxPanic)
      | o :: _ =>
        p1Loop orc opt fc o.parent (List.range o.parent.externalInputChans) w

/-- Loop body of `connectExternalInputs` (lines 115–124): for input shard
`i` of the first task, derive the boundary name, look its location up in the
name-to-location map (zero value `""` when absent), resolve a direct read
channel (a failure is `log.Panic`ed), and connect it to the task's typed
input channel at index `i` (an out-of-range index panics) through a decoding
adapter whose status is appended to the executor status. -/
def p2Loop (orc : NetchanOracle) (opt : TaskOption) (fc : FlowContext)
    (n2l : List (String × String)) (inputChans : List TypedChan) :
    Nat → List DatasetShard → WState → WState × Option String
  | _, [], w => (w, none)
  | i, shard :: rest, w =>
    let name := boundaryChanName opt.executableFileHash shard.name
    match orc.getDirectReadChannel name (mapGet n2l name) fc.channelBufferSize with
    | .error e => ({ w with calls := w.calls ++ [⟨.directRead name (mapGet n2l name) fc.channelBufferSize, some e⟩] }, some e)
    | .ok raw =>
      match inputChans.get? i with
      | none => ({ w with calls := w.calls ++ [⟨.directRead name (mapGet n2l name) fc.channelBufferSize, none⟩] }, some idxPanic)
      | some tc =>
        let st := orc.connectRawReadChannelToTyped raw tc shard.parent.dsType
        p2Loop orc opt fc n2l inputChans (i + 1) rest
          { w with
            status := { w.status with
              inputChannelStatuses := w.status.inputChannelStatuses ++ [st] }
            calls := w.calls ++ [⟨.directRead name (mapGet n2l name) fc.channelBufferSize, none⟩]
            spawned := w.spawned ++ [.inputAdapter name] }

/-- Phase 2, `connectExternalInputs` (lines 113–126): wires each input shard
of the first task (`tr.Tasks[0]` panics on an empty group). -/
def connectExternalInputs (orc : NetchanOracle) (opt : TaskOption)
    (fc : FlowContext) (n2l : List (String × String)) (tasks : List Task)
    (w : WState) : WState × Option String :=
  match tasks with
  | [] => (w, some idxPanic)
  | firstTask :: _ => p2Loop orc opt fc n2l firstTask.inputChans 0 firstTask.inputs w

/-- Loop of `connectInternalInputsAndOutputs` (lines 89–111): for each
adjacent pair of tasks, take the sole output shard of the earlier and the sole
input shard of the later (`Outputs[0]` / `Inputs[0]` panic when missing), set
up the output shard's reading channels, and spawn one forwarding goroutine
(registered with the tracker). -/
def p3Loop : Nat → List Task → WState → WState × Option String
  | _, [], w => (w, none)
  | _, [_], w => (w, none)
  | i, t1 :: t2 :: rest, w =>
    match t1.outputs, t2.inputs with
    | _ :: _, _ :: _ =>
      p3Loop (i + 1) (t2 :: rest) { w with spawned := w.spawned ++ [.forwarder i] }
    | _, _ => (w, some idxPanic)

/-- Phase 3, `connectInternalInputsAndOutputs`: internal hops between
consecutive tasks. -/
def connectInternalInputsAndOutputs (tasks : List Task) (w : WState) :
    WState × Option String :=
  p3Loop 0 tasks w

/-- Loop body of `connectExternalOutputs` (lines 149–157): for each output
shard of the last task, derive the boundary name, resolve a local send channel
(a failure is `log.Panic`ed), and connect the shard's typed write channel
through an encoding adapter, overwriting `OutputChannelStatus` with the
returned status. -/
def p4Loop (orc : NetchanOracle) (opt : TaskOption) :
    List DatasetShard → WState → WState × Option String
  | [], w => (w, none)
  | shard :: rest, w =>
    let name := boundaryChanName opt.executableFileHash shard.name
    match orc.getLocalSendChannel name with
    | .error e => ({ w with calls := w.calls ++ [⟨.localSend name, some e⟩] }, some e)
    | .ok raw =>
      let st := orc.connectTypedWriteChannelToRaw shard.writeChan raw
      p4Loop orc opt rest
        { w with
          status := { w.status with outputChannelStatus := some st }
          calls := w.calls ++ [⟨.localSend name, none⟩]
          spawned := w.spawned ++ [.encodeAdapter name] }

/-- Phase 4, `connectExternalOutputs` (lines 148–158): wires each output
shard of the last task (`tr.Tasks[len(tr.Tasks)-1]` panics on an empty
group). -/
def connectExternalOutputs (orc : NetchanOracle) (opt : TaskOption)
    (tasks : List Task) (w : WState) : WState × Option String :=
  match tasks.getLast? with
  | none => (w, some idxPanic)
  | some lastTask => p4Loop orc opt lastTask.outputs w

/-- `connectInputsAndOutputs` (lines 74–87): parse the name-to-location
mapping from the option's inputs string, then run the four phases in order. -/
def connectInputsAndOutputs (orc : NetchanOracle) (opt : TaskOption)
    (fc : FlowContext) (tasks : List Task) (w : WState) :
    WState × Option String :=
  match parseInputs opt.inputs with
  | .error e => (w, some e)
  | .ok n2l =>
    bindW (connectExternalInputChannels orc opt fc tasks w) (fun w1 =>
    bindW (connectExternalInputs orc opt fc n2l tasks w1) (fun w2 =>
    bindW (connectInternalInputsAndOutputs tasks w2) (fun w3 =>
    connectExternalOutputs orc opt tasks w3)))

/-- The observable outcome of one `Run` call: the (possibly updated) flow
context, the resolved task group, the final executor status, the wiring
effects, the panic that aborted the run (if any), and the number of stage
goroutines launched. -/
structure RunResult where
  fc : FlowContext
  tasks : List Task
  status : ExecutorStatus
  wiring : WState
  panicMsg : Option String
  launchedTasks : Nat
deriving DecidableEq, Repr

/-- `Run` (lines 44–72), as a sequential denotation: reject a context whose
id differs from the option's; otherwise write the buffer size into the
context, resolve the task group (`plan.GroupTasks(fc)[tr.option.TaskGroupId]`,
panicking on an out-of-range group id), record the start time, wire, launch
one goroutine per task, wait for all units, and record the stop time.
`groupTasks` is the external planning collaborator; `tStart`/`tStop` are the
values `time.Now()` returns at the two recording points. -/
def run (orc : NetchanOracle) (groupTasks : FlowContext → List (List Task))
    (opt : TaskOption) (fc : FlowContext) (es : ExecutorStatus)
    (tStart tStop : Nat) : RunResult :=
  if fc.id ≠ opt.contextId then
    ⟨fc, [], es, initW es, none, 0⟩
  else
    let fc' : FlowContext := { fc with channelBufferSize := opt.channelBufferSize }
    match
      if 0 ≤ opt.taskGroupId then (groupTasks fc').get? opt.taskGroupId.toNat
      else none
    with
    | none => ⟨fc', [], es, initW es, some idxPanic, 0⟩
    | some tasks =>
      let es1 := { es with startTime := some tStart }
      match connectInputsAndOutputs orc opt fc' tasks (initW es1) with
      | (w, some e) => ⟨fc', tasks, w.status, w, some e, 0⟩
      | (w, none) =>
        ⟨fc', tasks, { w.status with stopTime := some tStop }, w, none,
          tasks.length⟩

/-- An action of the internal forwarding goroutine, as seen by the downstream
stage's input shard: either a `SendForRead` of one value or the single
`CloseRead`. -/
inductive FwdEvent (α : Type) where
  | send (a : α)
  | closeRead
deriving DecidableEq, Repr

/-- The value a forwarding event delivers, if it is a send. -/
def FwdEvent.sentValue : FwdEvent α → Option α
  | .send a => some a
  | .closeRead => none

/-- Whether a forwarding event is the `CloseRead`. -/
def FwdEvent.isClose : FwdEvent α → Bool
  | .send _ => false
  | .closeRead => true

/-- The forwarding goroutine body (lines 100–110), run against an upstream
channel that yields the values `upstream` in order and then reports closed:
`Recv` on a non-empty stream succeeds (`ok`) and the value is relayed by
`SendForRead`; on the exhausted stream `Recv` reports `!ok`, the goroutine
calls `CloseRead` once and breaks. -/
def forwarderEvents : List α → List (FwdEvent α)
  | [] => [.closeRead]
  | t :: rest => .send t :: forwarderEvents rest

/-- Program counter of the runner goroutine in the concurrent model of
`Run` (accepted-context path, lines 48–71). -/
inductive Pc where
  | initial
  | started
  | wired
  | launched
  | waited
  | stopped
deriving DecidableEq, Repr

/-- A state of the concurrent system: the runner's program counter, the
current clock value, the two recorded timestamps, the number of units
registered with the shared `sync.WaitGroup` (`wg.Add`), and the number that
have signaled completion (`wg.Done`). -/
structure CS where
  pc : Pc
  now : Nat
  startTime : Option Nat
  stopTime : Option Nat
  registered : Nat
  finished : Nat
deriving DecidableEq, Repr

/-- The interleaved small-step semantics of an accepted `Run` with `nWire`
wiring-spawned units (adapters and forwarders) and `nTasks` stage goroutines:

* `tick` — time passes;
* `recordStart` — `tr.executorStatus.StartTime = time.Now()` (line 53);
* `wire` — `tr.connectInputsAndOutputs(&wg)` registers the `nWire`
  background units with the tracker before spawning them (line 58);
* `launch` — the loop over tasks does `wg.Add(1)` and `go task.RunTask()`
  for each of the `nTasks` stages (lines 60–66);
* `unitFinish` — any registered, unfinished unit's `defer wg.Done()` fires;
* `wait` — `wg.Wait()` (line 68) returns, enabled only when every
  registered unit has finished;
* `recordStop` — `tr.executorStatus.StopTime = time.Now()` (line 71). -/
inductive Step (nWire nTasks : Nat) : CS → CS → Prop
  | tick (s : CS) : Step nWire nTasks s { s with now := s.now + 1 }
  | recordStart (s : CS) (h : s.pc = .initial) :
      Step nWire nTasks s { s with pc := .started, startTime := some s.now }
  | wire (s : CS) (h : s.pc = .started) :
      Step nWire nTasks s { s with pc := .wired, registered := s.registered + nWire }
  | launch (s : CS) (h : s.pc = .wired) :
      Step nWire nTasks s { s with pc := .launched, registered := s.registered + nTasks }
  | unitFinish (s : CS) (h : s.finished < s.registered) :
      Step nWire nTasks s { s with finished := s.finished + 1 }
  | wait (s : CS) (h1 : s.pc = .launched) (h2 : s.finished = s.registered) :
      Step nWire nTasks s { s with pc := .waited }
  | recordStop (s : CS) (h : s.pc = .waited) :
      Step nWire nTasks s { s with pc := .stopped, stopTime := some s.now }

/-- The initial state of an accepted `Run` at clock value `n0`. -/
def initCS (n0 : Nat) : CS := ⟨.initial, n0, none, none, 0, 0⟩

/-- Reachability from the initial state of an accepted `Run`. -/
def ReachableCS (nWire nTasks n0 : Nat) (s : CS) : Prop :=
  Relation.ReflTransGen (Step nWire nTasks) (initCS n0) s

/-- Splitting a token at the FIRST occurrence of `sep` only: `none` when
`sep` does not occur. -/
def splitAtFirst (sep : Char) : List Char → Option (List Char × List Char)
  | [] => none
  | c :: rest =>
    if c = sep then some ([], rest)
    else (splitAtFirst sep rest).map (fun p => (c :: p.1, p.2))

/-- Modelled from the spec's words for claim C5 (NOT from the source): the
mapping is built by "splitting each token on the first '@', mapping the text
before the first '@' to the entire text after the first '@'".  Used only to
compare against `parseInputs`, which embeds the source. -/
def parseClaimedLoop : List (List Char) → List (String × String) →
    Except String (List (String × String))
  | [], m => .ok m
  | tok :: rest, m =>
    match splitAtFirst '@' tok with
    | some (k, v) => parseClaimedLoop rest (mapUpsert m ⟨k⟩ ⟨v⟩)
    | none => .error idxPanic

/-- Modelled from the spec's words for claim C5 (NOT from the source): the
name-to-location mapping as the claim describes it. -/
def parseInputsClaimed (s : List Char) : Except String (List (String × String)) :=
  if s = [] then .ok [] else parseClaimedLoop (splitChars ',' s) []

/-- The well-formedness of a task chain assumed by the internal phase: each
stage but the last has at least one output shard and each stage but the first
has at least one input shard (per the spec every stage has one or more
outputs, and internal consumers have their sole input). -/
def chainShape : List Task → Prop
  | [] => True
  | [_] => True
  | t1 :: t2 :: rest => t1.outputs ≠ [] ∧ t2.inputs ≠ [] ∧ chainShape (t2 :: rest)

/-- All logged resolution calls succeeded. -/
def callsOk (l : List CallRec) : Prop := ∀ c ∈ l, c.err = none

/-- The call log ends with the single failed call (error `e`), and every call
before it succeeded: a resolution failure is final, with no retry and no
further calls. -/
def endsWithFailure (l : List CallRec) (e : String) : Prop :=
  ∃ pre c, l = pre ++ [c] ∧ callsOk pre ∧ c.err = some e

/-- A netchan oracle whose resolutions always succeed, for concrete runs. -/
def demoOracle : NetchanOracle :=
  ⟨fun _ _ _ => .ok 5, fun _ _ => .ok 6, fun _ => .ok 7,
   fun raw tc ty => raw + 10 * tc + 100 * ty,
   fun tc raw => tc + 1000 * raw⟩

/-- A netchan oracle whose local-send resolution fails, for concrete runs. -/
def failSendOracle : NetchanOracle :=
  ⟨fun _ _ _ => .ok 5, fun _ _ => .ok 6, fun _ => .error "no broker",
   fun raw tc ty => raw + 10 * tc + 100 * ty,
   fun tc raw => tc + 1000 * raw⟩

/-- A freshly constructed executor status, all fields zero. -/
def esEmpty : ExecutorStatus := ⟨[], none, none, none, none⟩

/-- A concrete dataset with three declared external input channels. -/
def dsDemo : Dataset := ⟨4, 2, 3⟩

/-- A concrete input shard of the first demo task. -/
def shardIn1 : DatasetShard := ⟨"in1", dsDemo, 11⟩

/-- A concrete shard on the internal hop between the demo tasks. -/
def shardMid : DatasetShard := ⟨"mid", dsDemo, 12⟩

/-- A concrete first output shard of the last demo task. -/
def shardOutA : DatasetShard := ⟨"outA", dsDemo, 13⟩

/-- A concrete second output shard of the last demo task. -/
def shardOutB : DatasetShard := ⟨"outB", dsDemo, 14⟩

/-- A concrete first task: one input shard, one output shard. -/
def taskA : Task := ⟨[shardIn1], [shardMid], [21]⟩

/-- A concrete last task: one input shard, two output shards. -/
def taskB : Task := ⟨[shardMid], [shardOutA, shardOutB], [22]⟩

/-- A concrete source task: no input shards. -/
def taskSrc : Task := ⟨[], [shardMid], []⟩

/-- A concrete option accepting context 1 and task group 0. -/
def optDemo : TaskOption := ⟨1, 0, "h", "h-in1@loc1".data, 9⟩

/-- A concrete option whose inputs string has a token without '@'. -/
def optBad : TaskOption := ⟨1, 0, "h", "x".data, 9⟩

/-- A concrete flow context matching `optDemo`. -/
def fcDemo : FlowContext := ⟨1, 0⟩

/-- A concrete flow context not matching `optDemo`. -/
def fcOther : FlowContext := ⟨2, 0⟩

/-- A concrete grouping collaborator with the two-stage demo group. -/
def groupTasksDemo : FlowContext → List (List Task) := fun _ => [[taskA, taskB]]

/-- The number of units registered with the WaitGroup at each point of the
runner's program: none before wiring, the wiring-spawned units after wiring,
and additionally the stage goroutines once launched. -/
def regOf (nWire nTasks : Nat) : Pc → Nat
  | .initial => 0
  | .started => 0
  | .wired => nWire
  | .launched => nWire + nTasks
  | .waited => nWire + nTasks
  | .stopped => nWire + nTasks

/-- Inductive invariant of the concurrent `Run` model: the WaitGroup counter
matches the program point, finishes never exceed registrations, the wait and
stop points are reached only with all units finished, the start timestamp
exists from the start point on and never exceeds the clock, and the stop
timestamp exists exactly at the stop point, bounded by the clock and at least
the start timestamp. -/
def InvCS (nWire nTasks : Nat) (s : CS) : Prop :=
  s.registered = regOf nWire nTasks s.pc
  ∧ s.finished ≤ s.registered
  ∧ ((s.pc = .waited ∨ s.pc = .stopped) → s.finished = s.registered)
  ∧ (s.pc ≠ .initial → ∃ a, s.startTime = some a)
  ∧ (∀ a, s.startTime = some a → a ≤ s.now)
  ∧ (s.pc ≠ .stopped → s.stopTime = none)
  ∧ (s.pc = .stopped → ∃ b, s.stopTime = some b ∧ b ≤ s.now
      ∧ ∀ a, s.startTime = some a → a ≤ b)

/-! ### Lemmas about splitting and parsing -/

theorem splitChars_ne_nil (sep : Char) (s : List Char) : splitChars sep s ≠ [] := by
  cases s with
  | nil => simp [splitChars]
  | cons c rest =>
    simp only [splitChars]
    split
    · simp
    · split <;> simp

theorem splitChars_of_not_mem {sep : Char} {s : List Char} (h : sep ∉ s) :
    splitChars sep s = [s] := by
  induction s with
  | nil => rfl
  | cons c rest ih =>
    have hc : ¬(c = sep) := fun hcs => h (hcs ▸ List.mem_cons_self c rest)
    have h' : sep ∉ rest := fun hm => h (List.mem_cons_of_mem _ hm)
    simp [splitChars, hc, ih h']

theorem splitChars_append {sep : Char} {a : List Char} (r : List Char)
    (h : sep ∉ a) : splitChars sep (a ++ sep :: r) = a :: splitChars sep r := by
  induction a with
  | nil => simp [splitChars]
  | cons c t ih =>
    have hc : ¬(c = sep) := fun hcs => h (hcs ▸ List.mem_cons_self c t)
    have h' : sep ∉ t := fun hm => h (List.mem_cons_of_mem _ hm)
    simp [splitChars, hc, ih h']

theorem splitChars_length_two {sep : Char} {s : List Char} (h : sep ∈ s) :
    2 ≤ (splitChars sep s).length := by
  induction s with
  | nil => cases h
  | cons c rest ih =>
    by_cases hc : c = sep
    · have h1 : splitChars sep rest ≠ [] := splitChars_ne_nil sep rest
      have h2 : 1 ≤ (splitChars sep rest).length := by
        cases he : splitChars sep rest with
        | nil => exact absurd he h1
        | cons x xs => simp
      simp [splitChars, hc]
      omega
    · have hrest : sep ∈ rest := by
        cases List.mem_cons.mp h with
        | inl he => exact absurd he.symm hc
        | inr hm => exact hm
      have h2 := ih hrest
      simp only [splitChars, if_neg hc]
      cases he : splitChars sep rest with
      | nil => exact absurd he (splitChars_ne_nil sep rest)
      | cons x xs =>
        rw [he] at h2
        simpa using h2

theorem parseLoop_error {toks : List (List Char)}
    (h : ∃ t ∈ toks, '@' ∉ t) (m : List (String × String)) :
    parseLoop toks m = .error idxPanic := by
  induction toks generalizing m with
  | nil =>
    obtain ⟨t, ht, _⟩ := h
    cases ht
  | cons t0 rest ih =>
    by_cases h0 : '@' ∈ t0
    · have h2 := splitChars_length_two h0
      obtain ⟨k, v, tl, he⟩ : ∃ k v tl, splitChars '@' t0 = k :: v :: tl := by
        cases hs : splitChars '@' t0 with
        | nil => rw [hs] at h2; simp at h2
        | cons k l =>
          cases l with
          | nil => rw [hs] at h2; simp at h2
          | cons v tl => exact ⟨k, v, tl, rfl⟩
      rw [parseLoop, he]
      apply ih
      obtain ⟨t, ht, hnot⟩ := h
      cases List.mem_cons.mp ht with
      | inl he' => exact absurd h0 (he' ▸ hnot)
      | inr hm => exact ⟨t, hm, hnot⟩
    · have he : splitChars '@' t0 = [t0] := splitChars_of_not_mem h0
      rw [parseLoop, he]

/-! ### Claim C1 -/

/-- C1: the internal forwarding unit between adjacent stages relays every
value from the upstream shard's channel to the downstream shard's channel in
exactly the order produced — no reordering, no loss, no duplication — and
issues the downstream `CloseRead` exactly once, as the last event, i.e. only
after the upstream channel reported exhausted. -/
theorem c1_forwarder_relays_in_order_and_closes_once (α : Type) (xs : List α) :
    forwarderEvents xs = xs.map FwdEvent.send ++ [FwdEvent.closeRead]
    ∧ (forwarderEvents xs).filterMap FwdEvent.sentValue = xs
    ∧ ((forwarderEvents xs).filter FwdEvent.isClose).length = 1
    ∧ (forwarderEvents xs).getLast? = some FwdEvent.closeRead := by
  have hmain : forwarderEvents xs = xs.map FwdEvent.send ++ [FwdEvent.closeRead] := by
    induction xs with
    | nil => rfl
    | cons a t ih => simp [forwarderEvents, ih]
  refine ⟨hmain, ?_, ?_, ?_⟩ <;> rw [hmain] <;> clear hmain
  · induction xs with
    | nil => rfl
    | cons a t ih => simpa [FwdEvent.sentValue] using ih
  · induction xs with
    | nil => rfl
    | cons a t ih => simp [FwdEvent.isClose]
  · exact List.getLast?_concat _

/-! ### Claim C2 -/

/-- C2: calling `Run` with a flow context whose id differs from the option's
`ContextId` is a silent no-op: the context (including its buffer-size field)
is returned unwritten, no task group is stored, the executor status is
unchanged, no resolution calls are made, no units are spawned, no stage
goroutines are launched — and the outcome does not depend on the netchan or
grouping collaborators nor on the clock. -/
theorem c2_run_rejected_context_no_side_effects
    (orc orc' : NetchanOracle) (g g' : FlowContext → List (List Task))
    (opt : TaskOption) (fc : FlowContext) (es : ExecutorStatus)
    (t t' u u' : Nat) (h : fc.id ≠ opt.contextId) :
    run orc g opt fc es t t' = ⟨fc, [], es, initW es, none, 0⟩
    ∧ run orc g opt fc es t t' = run orc' g' opt fc es u u' := by
  constructor <;> simp [run, h]

/-- Witness for C2 at a concrete mismatched context. -/
theorem c2_run_rejected_context_no_side_effects_witness :
    run demoOracle groupTasksDemo optDemo fcOther esEmpty 3 7
      = ⟨fcOther, [], esEmpty, initW esEmpty, none, 0⟩
    ∧ run demoOracle groupTasksDemo optDemo fcOther esEmpty 3 7
      = run failSendOracle (fun _ => []) optDemo fcOther esEmpty 0 0 :=
  c2_run_rejected_context_no_side_effects demoOracle failSendOracle
    groupTasksDemo (fun _ => []) optDemo fcOther esEmpty 3 7 0 0 (by decide)

/-! ### Claim C5 (corrected) -/

/-- C5 counterexample: the claim says each token is split on the FIRST '@',
with the text before it mapped to the ENTIRE text after it; but the code
splits on every '@' and takes element 1, so the token `a@b@c` is mapped to
`("a", "b")`, not `("a", "b@c")` as the claim requires. -/
theorem c5_counterexample_multi_at_token :
    parseInputs ("a@b@c".data) = .ok [("a", "b")]
    ∧ parseInputsClaimed ("a@b@c".data) = .ok [("a", "b@c")]
    ∧ parseInputs ("a@b@c".data) ≠ parseInputsClaimed ("a@b@c".data) := by
  have h1 : parseInputs ("a@b@c".data) = .ok [("a", "b")] := by rfl
  have h2 : parseInputsClaimed ("a@b@c".data) = .ok [("a", "b@c")] := by rfl
  refine ⟨h1, h2, ?_⟩
  rw [h1, h2]
  intro h
  injection h with h3
  exact absurd h3 (by decide)

/-- C5 (amended): the derived mapping is built by splitting the inputs string
on commas and splitting each token on every '@', mapping the text before the
first '@' to the text strictly between the first and the second '@' (for a
token containing exactly one '@' that is the entire text after it); the
concrete examples hold: `"A-shard@host1:9000,B-shard@host2:9001"` yields
`{"A-shard": "host1:9000", "B-shard": "host2:9001"}` and the empty string
yields the empty mapping. -/
theorem c5_amended_parse_mapping :
    parseInputs ("A-shard@host1:9000,B-shard@host2:9001".data)
      = .ok [("A-shard", "host1:9000"), ("B-shard", "host2:9001")]
    ∧ parseInputs [] = .ok []
    ∧ ∀ a b r : List Char, ',' ∉ a → ',' ∉ b → ',' ∉ r →
        '@' ∉ a → '@' ∉ b →
        parseInputs (a ++ '@' :: (b ++ '@' :: r)) = .ok [(⟨a⟩, ⟨b⟩)] := by
  refine ⟨by rfl, by rfl, ?_⟩
  intro a b r hca hcb hcr haa hab
  have hcomma : ',' ∉ a ++ '@' :: (b ++ '@' :: r) := by
    intro hm
    rcases List.mem_append.mp hm with hm | hm
    · exact hca hm
    · rcases List.mem_cons.mp hm with hm | hm
      · cases hm
      · rcases List.mem_append.mp hm with hm | hm
        · exact hcb hm
        · rcases List.mem_cons.mp hm with hm | hm
          · cases hm
          · exact hcr hm
  have hne : a ++ '@' :: (b ++ '@' :: r) ≠ [] := by simp
  have hsplit1 : splitChars ',' (a ++ '@' :: (b ++ '@' :: r))
      = [a ++ '@' :: (b ++ '@' :: r)] := splitChars_of_not_mem hcomma
  have hsplit2 : splitChars '@' (a ++ '@' :: (b ++ '@' :: r))
      = a :: b :: splitChars '@' r := by
    rw [splitChars_append _ haa, splitChars_append _ hab]
  rw [parseInputs, if_neg hne, hsplit1]
  simp [parseLoop, hsplit2, mapUpsert]

/-- Witness for the general part of the amended C5 at a concrete token with
two '@' characters. -/
theorem c5_amended_parse_mapping_witness :
    parseInputs ("x".data ++ '@' :: ("y".data ++ '@' :: "z".data))
      = .ok [(⟨"x".data⟩, ⟨"y".data⟩)] :=
  c5_amended_parse_mapping.2.2 "x".data "y".data "z".data
    (by decide) (by decide) (by decide) (by decide) (by decide)

/-! ### Claim C9 -/

/-- C9: for every non-empty inputs string containing a comma token with no
'@' character, the parsing step accesses index 1 of a one-element split and
panics with "index out of range"; consequently `Run` on an accepted context
(with a resolvable task group) panics rather than completing. -/
theorem c9_malformed_inputs_panic
    (orc : NetchanOracle) (groupTasks : FlowContext → List (List Task))
    (opt : TaskOption) (fc : FlowContext) (es : ExecutorStatus)
    (tS tT : Nat) (tasks : List Task)
    (hacc : fc.id = opt.contextId)
    (hgid : 0 ≤ opt.taskGroupId)
    (hres : (groupTasks { fc with channelBufferSize := opt.channelBufferSize }).get?
        opt.taskGroupId.toNat = some tasks)
    (hne : opt.inputs ≠ [])
    (hbad : ∃ t ∈ splitChars ',' opt.inputs, '@' ∉ t) :
    parseInputs opt.inputs = .error idxPanic
    ∧ (run orc groupTasks opt fc es tS tT).panicMsg = some idxPanic := by
  have hp : parseInputs opt.inputs = .error idxPanic := by
    rw [parseInputs, if_neg hne]
    exact parseLoop_error hbad []
  refine ⟨hp, ?_⟩
  rw [run, if_neg (by simp [hacc])]
  simp only [if_pos hgid, hres, connectInputsAndOutputs, hp]

/-- Witness for C9 at the concrete inputs string `"x"`. -/
theorem c9_malformed_inputs_panic_witness :
    parseInputs optBad.inputs = .error idxPanic
    ∧ (run demoOracle groupTasksDemo optBad fcDemo esEmpty 2 5).panicMsg
        = some idxPanic :=
  c9_malformed_inputs_panic demoOracle groupTasksDemo optBad fcDemo esEmpty 2 5
    [taskA, taskB] (by decide) (by decide) (by decide) (by decide)
    ⟨"x".data, by decide, by decide⟩

/-! ### Success-case characterizations of the wiring loops -/

theorem p1Loop_ok (orc : NetchanOracle) (opt : TaskOption) (fc : FlowContext)
    (ds : Dataset) (fRead : String → Nat → RawChan)
    (hR : ∀ n b, orc.getLocalReadChannel n b = .ok (fRead n b)) :
    ∀ (is : List Nat) (w : WState),
      (p1Loop orc opt fc ds is w).2 = none
      ∧ (p1Loop orc opt fc ds is w).1.calls = w.calls
          ++ is.map (fun i => ⟨.localRead
              (sourceInputChanName opt.executableFileHash opt.contextId ds.id i)
              fc.channelBufferSize, none⟩)
      ∧ (p1Loop orc opt fc ds is w).1.spawned = w.spawned
          ++ is.map (fun i => .sourceAdapter
              (sourceInputChanName opt.executableFileHash opt.contextId ds.id i))
      ∧ (p1Loop orc opt fc ds is w).1.status.inputChannelStatuses.length
          = w.status.inputChannelStatuses.length + is.length
      ∧ (p1Loop orc opt fc ds is w).1.status.outputChannelStatus
          = w.status.outputChannelStatus := by
  intro is
  induction is with
  | nil => intro w; simp [p1Loop]
  | cons i rest ih =>
    intro w
    simp only [p1Loop, hR]
    obtain ⟨h1, h2, h3, h4, h5⟩ := ih _
    refine ⟨h1, ?_, ?_, ?_, ?_⟩
    · rw [h2]; simp
    · rw [h3]; simp
    · rw [h4]; simp; omega
    · rw [h5]

theorem p2Loop_ok (orc : NetchanOracle) (opt : TaskOption) (fc : FlowContext)
    (n2l : List (String × String)) (inputChans : List TypedChan)
    (fDirect : String → String → Nat → RawChan)
    (hD : ∀ n l b, orc.getDirectReadChannel n l b = .ok (fDirect n l b)) :
    ∀ (shards : List DatasetShard) (i : Nat) (w : WState),
      i + shards.length ≤ inputChans.length →
      (p2Loop orc opt fc n2l inputChans i shards w).2 = none
      ∧ (p2Loop orc opt fc n2l inputChans i shards w).1.calls = w.calls
          ++ shards.map (fun s => ⟨.directRead
              (boundaryChanName opt.executableFileHash s.name)
              (mapGet n2l (boundaryChanName opt.executableFileHash s.name))
              fc.channelBufferSize, none⟩)
      ∧ (p2Loop orc opt fc n2l inputChans i shards w).1.spawned = w.spawned
          ++ shards.map (fun s => .inputAdapter
              (boundaryChanName opt.executableFileHash s.name))
      ∧ (p2Loop orc opt fc n2l inputChans i shards w).1.status.inputChannelStatuses.length
          = w.status.inputChannelStatuses.length + shards.length := by
  intro shards
  induction shards with
  | nil => intro i w _; simp [p2Loop]
  | cons s rest ih =>
    intro i w h
    have hi : i < inputChans.length := by simp at h; omega
    have hget : inputChans.get? i = some (inputChans.get ⟨i, hi⟩) :=
      List.get?_eq_get hi
    simp only [p2Loop, hD, hget]
    obtain ⟨h1, h2, h3, h4⟩ := ih (i + 1) _ (by simp at h ⊢; omega)
    refine ⟨h1, ?_, ?_, ?_⟩
    · rw [h2]; simp
    · rw [h3]; simp
    · rw [h4]; simp; omega

theorem p3Loop_ok :
    ∀ (ts : List Task) (i : Nat) (w : WState), chainShape ts →
      (p3Loop i ts w).2 = none
      ∧ (p3Loop i ts w).1.calls = w.calls
      ∧ (p3Loop i ts w).1.spawned = w.spawned
          ++ (List.range' i (ts.length - 1)).map UnitKind.forwarder
      ∧ (p3Loop i ts w).1.status = w.status := by
  intro ts
  induction ts with
  | nil => intro i w _; simp [p3Loop]
  | cons t1 ts' ih =>
    intro i w h
    cases ts' with
    | nil => simp [p3Loop]
    | cons t2 rest =>
      obtain ⟨ho, hin, hch⟩ := h
      obtain ⟨o, os, hoe⟩ := List.exists_cons_of_ne_nil ho
      obtain ⟨x, xs, hie⟩ := List.exists_cons_of_ne_nil hin
      simp only [p3Loop, hoe, hie]
      obtain ⟨h1, h2, h3, h4⟩ := ih (i + 1) _ hch
      refine ⟨h1, h2, ?_, h4⟩
      rw [h3]
      simp [List.range']

theorem foldl_overwrite {α : Type} :
    ∀ (l : List α) (a : Option α) (x : α),
      l.getLast? = some x → l.foldl (fun _ y => some y) a = some x := by
  intro l
  induction l with
  | nil => intro a x h; cases h
  | cons y t ih =>
    intro a x h
    cases t with
    | nil =>
      simp at h
      simp [List.foldl, h]
    | cons z t' =>
      rw [List.getLast?_cons_cons] at h
      rw [List.foldl]
      exact ih _ x h

theorem p4Loop_ok (orc : NetchanOracle) (opt : TaskOption)
    (fSend : String → RawChan)
    (hS : ∀ n, orc.getLocalSendChannel n = .ok (fSend n)) :
    ∀ (shards : List DatasetShard) (w : WState),
      (p4Loop orc opt shards w).2 = none
      ∧ (p4Loop orc opt shards w).1.calls = w.calls
          ++ shards.map (fun s => ⟨.localSend
              (boundaryChanName opt.executableFileHash s.name), none⟩)
      ∧ (p4Loop orc opt shards w).1.spawned = w.spawned
          ++ shards.map (fun s => .encodeAdapter
              (boundaryChanName opt.executableFileHash s.name))
      ∧ (p4Loop orc opt shards w).1.status.outputChannelStatus
          = (shards.map (fun s => orc.connectTypedWriteChannelToRaw s.writeChan
              (fSend (boundaryChanName opt.executableFileHash s.name)))).foldl
              (fun _ st => some st) w.status.outputChannelStatus
      ∧ (p4Loop orc opt shards w).1.status.inputChannelStatuses
          = w.status.inputChannelStatuses := by
  intro shards
  induction shards with
  | nil => intro w; simp [p4Loop]
  | cons s rest ih =>
    intro w
    simp only [p4Loop, hS]
    obtain ⟨h1, h2, h3, h4, h5⟩ := ih _
    refine ⟨h1, ?_, ?_, ?_, ?_⟩
    · rw [h2]; simp
    · rw [h3]; simp
    · rw [h4]; simp
    · rw [h5]

theorem bindW_of_none {r : WState × Option String}
    (f : WState → WState × Option String) (h : r.2 = none) :
    bindW r f = f r.1 := by
  obtain ⟨w, e⟩ := r
  simp at h
  subst h
  rfl

theorem bindW_of_some {r : WState × Option String}
    (f : WState → WState × Option String) {e : String} (h : r.2 = some e) :
    bindW r f = r := by
  obtain ⟨w, e'⟩ := r
  simp at h
  subst h
  rfl

/-- Combined success-case characterization of `connectInputsAndOutputs`:
with all resolutions succeeding and a well-shaped group, wiring completes
without panic, and the resolution calls and spawned units of the four phases
are exactly as the source dictates. -/
theorem wiring_ok (orc : NetchanOracle) (opt : TaskOption) (fc : FlowContext)
    (fDirect : String → String → Nat → RawChan)
    (fRead : String → Nat → RawChan) (fSend : String → RawChan)
    (hD : ∀ n l b, orc.getDirectReadChannel n l b = .ok (fDirect n l b))
    (hR : ∀ n b, orc.getLocalReadChannel n b = .ok (fRead n b))
    (hS : ∀ n, orc.getLocalSendChannel n = .ok (fSend n))
    (ft : Task) (rest : List Task) (o : DatasetShard) (os : List DatasetShard)
    (hout : ft.outputs = o :: os)
    (lt : Task) (hlt : (ft :: rest).getLast? = some lt)
    (hchain : chainShape (ft :: rest))
    (hics : ft.inputs.length ≤ ft.inputChans.length)
    (n2l : List (String × String))
    (hparse : parseInputs opt.inputs = .ok n2l)
    (w : WState) :
    (connectInputsAndOutputs orc opt fc (ft :: rest) w).2 = none
    ∧ (connectInputsAndOutputs orc opt fc (ft :: rest) w).1.calls = w.calls
        ++ (if ft.inputs = [] then
              (List.range o.parent.externalInputChans).map (fun i =>
                ⟨.localRead (sourceInputChanName opt.executableFileHash
                    opt.contextId o.parent.id i) fc.channelBufferSize, none⟩)
            else [])
        ++ ft.inputs.map (fun s => ⟨.directRead
            (boundaryChanName opt.executableFileHash s.name)
            (mapGet n2l (boundaryChanName opt.executableFileHash s.name))
            fc.channelBufferSize, none⟩)
        ++ lt.outputs.map (fun s => ⟨.localSend
            (boundaryChanName opt.executableFileHash s.name), none⟩)
    ∧ (connectInputsAndOutputs orc opt fc (ft :: rest) w).1.spawned = w.spawned
        ++ (if ft.inputs = [] then
              (List.range o.parent.externalInputChans).map (fun i =>
                .sourceAdapter (sourceInputChanName opt.executableFileHash
                    opt.contextId o.parent.id i))
            else [])
        ++ ft.inputs.map (fun s => .inputAdapter
            (boundaryChanName opt.executableFileHash s.name))
        ++ (List.range' 0 rest.length).map UnitKind.forwarder
        ++ lt.outputs.map (fun s => .encodeAdapter
            (boundaryChanName opt.executableFileHash s.name)) := by
  have hcio : connectInputsAndOutputs orc opt fc (ft :: rest) w
      = bindW (connectExternalInputChannels orc opt fc (ft :: rest) w) (fun w1 =>
        bindW (connectExternalInputs orc opt fc n2l (ft :: rest) w1) (fun w2 =>
        bindW (connectInternalInputsAndOutputs (ft :: rest) w2) (fun w3 =>
        connectExternalOutputs orc opt (ft :: rest) w3))) := by
    rw [connectInputsAndOutputs, hparse]
  by_cases hin : ft.inputs = []
  case pos =>
    have hph1 : connectExternalInputChannels orc opt fc (ft :: rest) w
        = p1Loop orc opt fc o.parent (List.range o.parent.externalInputChans) w := by
      simp [connectExternalInputChannels, hin, hout]
    obtain ⟨h1a, h1b, h1c, h1d, h1e⟩ :=
      p1Loop_ok orc opt fc o.parent fRead hR
        (List.range o.parent.externalInputChans) w
    cases hp1 : p1Loop orc opt fc o.parent (List.range o.parent.externalInputChans) w with
    | mk w1 e1 =>
    rw [hp1] at h1a h1b h1c h1d h1e
    simp only at h1a h1b h1c h1d h1e
    subst h1a
    have hph2 : connectExternalInputs orc opt fc n2l (ft :: rest) w1 = (w1, none) := by
      simp [connectExternalInputs, hin, p2Loop]
    obtain ⟨h3a, h3b, h3c, h3d⟩ := p3Loop_ok (ft :: rest) 0 w1 hchain
    cases hp3 : p3Loop 0 (ft :: rest) w1 with
    | mk w3 e3 =>
    rw [hp3] at h3a h3b h3c h3d
    simp only at h3a h3b h3c h3d
    subst h3a
    have hph4 : connectExternalOutputs orc opt (ft :: rest) w3
        = p4Loop orc opt lt.outputs w3 := by
      simp [connectExternalOutputs, hlt]
    obtain ⟨h4a, h4b, h4c, h4d, h4e⟩ := p4Loop_ok orc opt fSend hS lt.outputs w3
    rw [hcio, hph1, hp1, bindW_of_none _ rfl]
    simp only
    rw [hph2, bindW_of_none _ rfl]
    simp only
    rw [connectInternalInputsAndOutputs, hp3, bindW_of_none _ rfl]
    simp only
    rw [hph4]
    refine ⟨h4a, ?_, ?_⟩
    · rw [h4b, h3b, h1b]
      simp [hin, List.append_assoc]
    · rw [h4c, h3c, h1c]
      simp [hin, List.append_assoc]
  case neg =>
    have hph1 : connectExternalInputChannels orc opt fc (ft :: rest) w
        = (w, none) := by
      simp [connectExternalInputChannels, hin]
    have hph2 : connectExternalInputs orc opt fc n2l (ft :: rest) w
        = p2Loop orc opt fc n2l ft.inputChans 0 ft.inputs w := by
      simp [connectExternalInputs]
    obtain ⟨h2a, h2b, h2c, h2d⟩ :=
      p2Loop_ok orc opt fc n2l ft.inputChans fDirect hD ft.inputs 0 w
        (by simpa using hics)
    cases hp2 : p2Loop orc opt fc n2l ft.inputChans 0 ft.inputs w with
    | mk w2 e2 =>
    rw [hp2] at h2a h2b h2c h2d
    simp only at h2a h2b h2c h2d
    subst h2a
    obtain ⟨h3a, h3b, h3c, h3d⟩ := p3Loop_ok (ft :: rest) 0 w2 hchain
    cases hp3 : p3Loop 0 (ft :: rest) w2 with
    | mk w3 e3 =>
    rw [hp3] at h3a h3b h3c h3d
    simp only at h3a h3b h3c h3d
    subst h3a
    have hph4 : connectExternalOutputs orc opt (ft :: rest) w3
        = p4Loop orc opt lt.outputs w3 := by
      simp [connectExternalOutputs, hlt]
    obtain ⟨h4a, h4b, h4c, h4d, h4e⟩ := p4Loop_ok orc opt fSend hS lt.outputs w3
    rw [hcio, hph1, bindW_of_none _ rfl]
    simp only
    rw [hph2, hp2, bindW_of_none _ rfl]
    simp only
    rw [connectInternalInputsAndOutputs, hp3, bindW_of_none _ rfl]
    simp only
    rw [hph4]
    refine ⟨h4a, ?_, ?_⟩
    · rw [h4b, h3b, h2b]
      simp [hin, List.append_assoc]
    · rw [h4c, h3c, h2c]
      simp [hin, List.append_assoc]

/-! ### Claim C4 -/

/-- C4: for a task group of length N ≥ 1 (written `ft :: rest`), wiring
spawns exactly N-1 internal forwarding units; exactly one decoding adapter
per input slot of the first stage — or, when the first stage has no input
slots, one per declared external input of its output dataset — and exactly
one encoding adapter per output shard of the last stage. -/
theorem c4_wiring_unit_counts (orc : NetchanOracle) (opt : TaskOption)
    (fc : FlowContext)
    (fDirect : String → String → Nat → RawChan)
    (fRead : String → Nat → RawChan) (fSend : String → RawChan)
    (hD : ∀ n l b, orc.getDirectReadChannel n l b = .ok (fDirect n l b))
    (hR : ∀ n b, orc.getLocalReadChannel n b = .ok (fRead n b))
    (hS : ∀ n, orc.getLocalSendChannel n = .ok (fSend n))
    (ft : Task) (rest : List Task) (o : DatasetShard) (os : List DatasetShard)
    (hout : ft.outputs = o :: os)
    (lt : Task) (hlt : (ft :: rest).getLast? = some lt)
    (hchain : chainShape (ft :: rest))
    (hics : ft.inputs.length ≤ ft.inputChans.length)
    (n2l : List (String × String))
    (hparse : parseInputs opt.inputs = .ok n2l)
    (es : ExecutorStatus) :
    (connectInputsAndOutputs orc opt fc (ft :: rest) (initW es)).2 = none
    ∧ (((connectInputsAndOutputs orc opt fc (ft :: rest) (initW es)).1.spawned.filter
          UnitKind.isForwarder).length = (ft :: rest).length - 1)
    ∧ (((connectInputsAndOutputs orc opt fc (ft :: rest) (initW es)).1.spawned.filter
          UnitKind.isDecodeAdapter).length
        = if ft.inputs = [] then o.parent.externalInputChans else ft.inputs.length)
    ∧ (((connectInputsAndOutputs orc opt fc (ft :: rest) (initW es)).1.spawned.filter
          UnitKind.isEncodeAdapter).length = lt.outputs.length) := by
  obtain ⟨ha, _, hc⟩ := wiring_ok orc opt fc fDirect fRead fSend hD hR hS
    ft rest o os hout lt hlt hchain hics n2l hparse (initW es)
  refine ⟨ha, ?_, ?_, ?_⟩ <;> rw [hc] <;> by_cases hin : ft.inputs = [] <;>
    simp [hin, initW, List.filter_append, List.filter_map, Function.comp_def,
      UnitKind.isForwarder, UnitKind.isDecodeAdapter, UnitKind.isEncodeAdapter]

/-- Witness for C4: the two-stage demo group spawns 1 forwarder, 1 decoding
adapter (its first stage has one input shard), and 2 encoding adapters. -/
theorem c4_wiring_unit_counts_witness :
    (connectInputsAndOutputs demoOracle optDemo fcDemo [taskA, taskB] (initW esEmpty)).2 = none
    ∧ (((connectInputsAndOutputs demoOracle optDemo fcDemo [taskA, taskB]
          (initW esEmpty)).1.spawned.filter UnitKind.isForwarder).length
        = ([taskA, taskB] : List Task).length - 1)
    ∧ (((connectInputsAndOutputs demoOracle optDemo fcDemo [taskA, taskB]
          (initW esEmpty)).1.spawned.filter UnitKind.isDecodeAdapter).length
        = if taskA.inputs = [] then shardMid.parent.externalInputChans
          else taskA.inputs.length)
    ∧ (((connectInputsAndOutputs demoOracle optDemo fcDemo [taskA, taskB]
          (initW esEmpty)).1.spawned.filter UnitKind.isEncodeAdapter).length
        = taskB.outputs.length) :=
  c4_wiring_unit_counts demoOracle optDemo fcDemo
    (fun _ _ _ => 5) (fun _ _ => 6) (fun _ => 7)
    (fun _ _ _ => rfl) (fun _ _ => rfl) (fun _ => rfl)
    taskA [taskB] shardMid [] rfl taskB rfl
    ⟨by decide, by decide, trivial⟩ (by decide)
    [("h-in1", "loc1")] (by rfl) esEmpty

/-! ### Claim C6 -/

/-- C6: the external-input-channel phase (phase 1) runs exactly when the
first stage has no declared input slots: with input slots present phase 1
returns immediately untouched; with none, phase 1 proceeds over the declared
external inputs of the first output's dataset while phase 2 (the
external-data-input phase) wires nothing. -/
theorem c6_source_stage_phase_selection (orc : NetchanOracle)
    (opt : TaskOption) (fc : FlowContext) (n2l : List (String × String))
    (ft : Task) (rest : List Task) (w : WState) :
    (ft.inputs ≠ [] →
      connectExternalInputChannels orc opt fc (ft :: rest) w = (w, none))
    ∧ (ft.inputs = [] →
      connectExternalInputs orc opt fc n2l (ft :: rest) w = (w, none))
    ∧ (∀ o os, ft.inputs = [] → ft.outputs = o :: os →
      connectExternalInputChannels orc opt fc (ft :: rest) w
        = p1Loop orc opt fc o.parent (List.range o.parent.externalInputChans) w) := by
  refine ⟨?_, ?_, ?_⟩
  · intro h
    simp [connectExternalInputChannels, h]
  · intro h
    simp [connectExternalInputs, h, p2Loop]
  · intro o os h ho
    simp [connectExternalInputChannels, h, ho]

/-- Witness for C6: a stage with an input shard skips phase 1; the source
stage is wired by phase 1 over its three declared external inputs and phase 2
does nothing to it. -/
theorem c6_source_stage_phase_selection_witness :
    connectExternalInputChannels demoOracle optDemo fcDemo [taskA] (initW esEmpty)
      = (initW esEmpty, none)
    ∧ connectExternalInputs demoOracle optDemo fcDemo [] [taskSrc] (initW esEmpty)
      = (initW esEmpty, none)
    ∧ connectExternalInputChannels demoOracle optDemo fcDemo [taskSrc] (initW esEmpty)
      = p1Loop demoOracle optDemo fcDemo dsDemo (List.range 3) (initW esEmpty) :=
  ⟨(c6_source_stage_phase_selection demoOracle optDemo fcDemo [] taskA []
      (initW esEmpty)).1 (by decide),
   (c6_source_stage_phase_selection demoOracle optDemo fcDemo [] taskSrc []
      (initW esEmpty)).2.1 (by decide),
   (c6_source_stage_phase_selection demoOracle optDemo fcDemo [] taskSrc []
      (initW esEmpty)).2.2 shardMid [] (by decide) (by decide)⟩

/-! ### Claim C8 -/

/-- C8: every inter-stage boundary shard resolution (first-stage inputs in
phase 2, last-stage outputs in phase 4) uses the channel name
`{jobFingerprint}-{shardName}`, and every true-source external input
resolution uses `{jobFingerprint}-ct-{contextId}-input-{datasetId}-p-{i}`:
the full resolution-call log of a successful wiring is exactly these
requests. -/
theorem c8_channel_name_formats (orc : NetchanOracle) (opt : TaskOption)
    (fc : FlowContext)
    (fDirect : String → String → Nat → RawChan)
    (fRead : String → Nat → RawChan) (fSend : String → RawChan)
    (hD : ∀ n l b, orc.getDirectReadChannel n l b = .ok (fDirect n l b))
    (hR : ∀ n b, orc.getLocalReadChannel n b = .ok (fRead n b))
    (hS : ∀ n, orc.getLocalSendChannel n = .ok (fSend n))
    (ft : Task) (rest : List Task) (o : DatasetShard) (os : List DatasetShard)
    (hout : ft.outputs = o :: os)
    (lt : Task) (hlt : (ft :: rest).getLast? = some lt)
    (hchain : chainShape (ft :: rest))
    (hics : ft.inputs.length ≤ ft.inputChans.length)
    (n2l : List (String × String))
    (hparse : parseInputs opt.inputs = .ok n2l)
    (es : ExecutorStatus) :
    (connectInputsAndOutputs orc opt fc (ft :: rest) (initW es)).1.calls
      = (if ft.inputs = [] then
          (List.range o.parent.externalInputChans).map (fun i =>
            ⟨.localRead (sourceInputChanName opt.executableFileHash
                opt.contextId o.parent.id i) fc.channelBufferSize, none⟩)
        else [])
        ++ ft.inputs.map (fun s => ⟨.directRead
            (boundaryChanName opt.executableFileHash s.name)
            (mapGet n2l (boundaryChanName opt.executableFileHash s.name))
            fc.channelBufferSize, none⟩)
        ++ lt.outputs.map (fun s => ⟨.localSend
            (boundaryChanName opt.executableFileHash s.name), none⟩) := by
  obtain ⟨_, hb, _⟩ := wiring_ok orc opt fc fDirect fRead fSend hD hR hS
    ft rest o os hout lt hlt hchain hics n2l hparse (initW es)
  rw [hb]
  simp [initW]

/-- Witness for C8 on the two-stage demo group. -/
theorem c8_channel_name_formats_witness :
    (connectInputsAndOutputs demoOracle optDemo fcDemo [taskA, taskB]
        (initW esEmpty)).1.calls
      = (if taskA.inputs = [] then
          (List.range shardMid.parent.externalInputChans).map (fun i =>
            ⟨.localRead (sourceInputChanName optDemo.executableFileHash
                optDemo.contextId shardMid.parent.id i)
              fcDemo.channelBufferSize, none⟩)
        else [])
        ++ taskA.inputs.map (fun s => ⟨.directRead
            (boundaryChanName optDemo.executableFileHash s.name)
            (mapGet [("h-in1", "loc1")]
              (boundaryChanName optDemo.executableFileHash s.name))
            fcDemo.channelBufferSize, none⟩)
        ++ taskB.outputs.map (fun s => ⟨.localSend
            (boundaryChanName optDemo.executableFileHash s.name), none⟩) :=
  c8_channel_name_formats demoOracle optDemo fcDemo
    (fun _ _ _ => 5) (fun _ _ => 6) (fun _ => 7)
    (fun _ _ _ => rfl) (fun _ _ => rfl) (fun _ => rfl)
    taskA [taskB] shardMid [] rfl taskB rfl
    ⟨by decide, by decide, trivial⟩ (by decide)
    [("h-in1", "loc1")] (by rfl) esEmpty

/-! ### Claim C10 -/

/-- C10: in the external-output phase with more than one output shard on the
final stage, a local write channel is resolved and an encoding adapter
spawned for every shard, but the output-channel status field is overwritten
on each iteration and finally holds only the status handle of the last
output shard in iteration order. -/
theorem c10_output_status_overwritten (orc : NetchanOracle) (opt : TaskOption)
    (fSend : String → RawChan)
    (hS : ∀ n, orc.getLocalSendChannel n = .ok (fSend n))
    (tasks : List Task) (lt : Task) (hlt : tasks.getLast? = some lt)
    (lastShard : DatasetShard) (hls : lt.outputs.getLast? = some lastShard)
    (_hlen : 1 < lt.outputs.length) (w : WState) :
    (connectExternalOutputs orc opt tasks w).2 = none
    ∧ (connectExternalOutputs orc opt tasks w).1.calls = w.calls
        ++ lt.outputs.map (fun s => ⟨.localSend
            (boundaryChanName opt.executableFileHash s.name), none⟩)
    ∧ (connectExternalOutputs orc opt tasks w).1.spawned = w.spawned
        ++ lt.outputs.map (fun s => .encodeAdapter
            (boundaryChanName opt.executableFileHash s.name))
    ∧ (connectExternalOutputs orc opt tasks w).1.status.outputChannelStatus
        = some (orc.connectTypedWriteChannelToRaw lastShard.writeChan
            (fSend (boundaryChanName opt.executableFileHash lastShard.name))) := by
  have hph : connectExternalOutputs orc opt tasks w
      = p4Loop orc opt lt.outputs w := by
    simp [connectExternalOutputs, hlt]
  obtain ⟨a, b, c, d, _⟩ := p4Loop_ok orc opt fSend hS lt.outputs w
  rw [hph]
  refine ⟨a, b, c, ?_⟩
  rw [d]
  apply foldl_overwrite
  rw [List.getLast?_map, hls]
  rfl

/-- Witness for C10: with two output shards, the kept status handle is the
second shard's. -/
theorem c10_output_status_overwritten_witness :
    (connectExternalOutputs demoOracle optDemo [taskA, taskB] (initW esEmpty)).2 = none
    ∧ (connectExternalOutputs demoOracle optDemo [taskA, taskB]
        (initW esEmpty)).1.calls = (initW esEmpty).calls
        ++ taskB.outputs.map (fun s => ⟨.localSend
            (boundaryChanName optDemo.executableFileHash s.name), none⟩)
    ∧ (connectExternalOutputs demoOracle optDemo [taskA, taskB]
        (initW esEmpty)).1.spawned = (initW esEmpty).spawned
        ++ taskB.outputs.map (fun s => .encodeAdapter
            (boundaryChanName optDemo.executableFileHash s.name))
    ∧ (connectExternalOutputs demoOracle optDemo [taskA, taskB]
        (initW esEmpty)).1.status.outputChannelStatus
        = some (demoOracle.connectTypedWriteChannelToRaw shardOutB.writeChan
            (7 : RawChan)) := by
  have h := c10_output_status_overwritten demoOracle optDemo (fun _ => 7)
    (fun _ => rfl) [taskA, taskB] taskB rfl shardOutB rfl (by decide)
    (initW esEmpty)
  exact h

/-! ### Error-case characterization of the wiring call log -/

theorem callsOk_nil : callsOk [] := by
  intro c hc
  cases hc

theorem callsOk_append {a b : List CallRec} (ha : callsOk a) (hb : callsOk b) :
    callsOk (a ++ b) := by
  intro c hc
  rcases List.mem_append.mp hc with h | h
  · exact ha c h
  · exact hb c h

theorem endsWithFailure_append {a b : List CallRec} {e : String}
    (ha : callsOk a) (hb : endsWithFailure b e) :
    endsWithFailure (a ++ b) e := by
  obtain ⟨pre, c, heq, hpre, hc⟩ := hb
  exact ⟨a ++ pre, c, by simp [heq], callsOk_append ha hpre, hc⟩

theorem p1Loop_calls (orc : NetchanOracle) (opt : TaskOption)
    (fc : FlowContext) (ds : Dataset) :
    ∀ (is : List Nat) (w : WState), ∃ nc,
      (p1Loop orc opt fc ds is w).1.calls = w.calls ++ nc
      ∧ ((p1Loop orc opt fc ds is w).2 = none → callsOk nc)
      ∧ (∀ e, (p1Loop orc opt fc ds is w).2 = some e → endsWithFailure nc e) := by
  intro is
  induction is with
  | nil =>
    intro w
    refine ⟨[], by simp [p1Loop], fun _ => callsOk_nil, fun e he => ?_⟩
    simp [p1Loop] at he
  | cons i rest ih =>
    intro w
    cases hcall : orc.getLocalReadChannel
        (sourceInputChanName opt.executableFileHash opt.contextId ds.id i)
        fc.channelBufferSize with
    | error e' =>
      refine ⟨[⟨.localRead
          (sourceInputChanName opt.executableFileHash opt.contextId ds.id i)
          fc.channelBufferSize, some e'⟩], ?_, ?_, ?_⟩
      · simp [p1Loop, hcall]
      · intro h
        simp [p1Loop, hcall] at h
      · intro e he
        simp [p1Loop, hcall] at he
        subst he
        exact ⟨[], ⟨.localRead
          (sourceInputChanName opt.executableFileHash opt.contextId ds.id i)
          fc.channelBufferSize, some e'⟩, by simp, callsOk_nil, rfl⟩
    | ok raw =>
      simp only [p1Loop, hcall]
      obtain ⟨nc', h1, h2, h3⟩ := ih _
      refine ⟨⟨.localRead
          (sourceInputChanName opt.executableFileHash opt.contextId ds.id i)
          fc.channelBufferSize, none⟩ :: nc', ?_, ?_, ?_⟩
      · rw [h1]
        simp
      · intro h
        have hok := h2 h
        intro c hc
        rcases List.mem_cons.mp hc with rfl | hc
        · rfl
        · exact hok c hc
      · intro e he
        obtain ⟨pre, c, heq, hpre, hc⟩ := h3 e he
        refine ⟨⟨.localRead
            (sourceInputChanName opt.executableFileHash opt.contextId ds.id i)
            fc.channelBufferSize, none⟩ :: pre, c, by simp [heq], ?_, hc⟩
        intro c' hc'
        rcases List.mem_cons.mp hc' with rfl | hc'
        · rfl
        · exact hpre c' hc'

theorem p2Loop_calls (orc : NetchanOracle) (opt : TaskOption)
    (fc : FlowContext) (n2l : List (String × String))
    (inputChans : List TypedChan) :
    ∀ (shards : List DatasetShard) (i : Nat) (w : WState),
      i + shards.length ≤ inputChans.length → ∃ nc,
      (p2Loop orc opt fc n2l inputChans i shards w).1.calls = w.calls ++ nc
      ∧ ((p2Loop orc opt fc n2l inputChans i shards w).2 = none → callsOk nc)
      ∧ (∀ e, (p2Loop orc opt fc n2l inputChans i shards w).2 = some e →
          endsWithFailure nc e) := by
  intro shards
  induction shards with
  | nil =>
    intro i w _
    refine ⟨[], by simp [p2Loop], fun _ => callsOk_nil, fun e he => ?_⟩
    simp [p2Loop] at he
  | cons s rest ih =>
    intro i w h
    have hi : i < inputChans.length := by simp at h; omega
    have hget : inputChans.get? i = some (inputChans.get ⟨i, hi⟩) :=
      List.get?_eq_get hi
    cases hcall : orc.getDirectReadChannel
        (boundaryChanName opt.executableFileHash s.name)
        (mapGet n2l (boundaryChanName opt.executableFileHash s.name))
        fc.channelBufferSize with
    | error e' =>
      refine ⟨[⟨.directRead (boundaryChanName opt.executableFileHash s.name)
          (mapGet n2l (boundaryChanName opt.executableFileHash s.name))
          fc.channelBufferSize, some e'⟩], ?_, ?_, ?_⟩
      · simp [p2Loop, hcall]
      · intro hh
        simp [p2Loop, hcall] at hh
      · intro e he
        simp [p2Loop, hcall] at he
        subst he
        exact ⟨[], ⟨.directRead (boundaryChanName opt.executableFileHash s.name)
          (mapGet n2l (boundaryChanName opt.executableFileHash s.name))
          fc.channelBufferSize, some e'⟩, by simp, callsOk_nil, rfl⟩
    | ok raw =>
      simp only [p2Loop, hcall, hget]
      obtain ⟨nc', h1, h2, h3⟩ := ih (i + 1) _ (by simp at h ⊢; omega)
      refine ⟨⟨.directRead (boundaryChanName opt.executableFileHash s.name)
          (mapGet n2l (boundaryChanName opt.executableFileHash s.name))
          fc.channelBufferSize, none⟩ :: nc', ?_, ?_, ?_⟩
      · rw [h1]
        simp
      · intro hh
        have hok := h2 hh
        intro c hc
        rcases List.mem_cons.mp hc with rfl | hc
        · rfl
        · exact hok c hc
      · intro e he
        obtain ⟨pre, c, heq, hpre, hc⟩ := h3 e he
        refine ⟨⟨.directRead (boundaryChanName opt.executableFileHash s.name)
            (mapGet n2l (boundaryChanName opt.executableFileHash s.name))
            fc.channelBufferSize, none⟩ :: pre, c, by simp [heq], ?_, hc⟩
        intro c' hc'
        rcases List.mem_cons.mp hc' with rfl | hc'
        · rfl
        · exact hpre c' hc'

theorem p4Loop_calls (orc : NetchanOracle) (opt : TaskOption) :
    ∀ (shards : List DatasetShard) (w : WState), ∃ nc,
      (p4Loop orc opt shards w).1.calls = w.calls ++ nc
      ∧ ((p4Loop orc opt shards w).2 = none → callsOk nc)
      ∧ (∀ e, (p4Loop orc opt shards w).2 = some e → endsWithFailure nc e) := by
  intro shards
  induction shards with
  | nil =>
    intro w
    refine ⟨[], by simp [p4Loop], fun _ => callsOk_nil, fun e he => ?_⟩
    simp [p4Loop] at he
  | cons s rest ih =>
    intro w
    cases hcall : orc.getLocalSendChannel
        (boundaryChanName opt.executableFileHash s.name) with
    | error e' =>
      refine ⟨[⟨.localSend (boundaryChanName opt.executableFileHash s.name),
          some e'⟩], ?_, ?_, ?_⟩
      · simp [p4Loop, hcall]
      · intro hh
        simp [p4Loop, hcall] at hh
      · intro e he
        simp [p4Loop, hcall] at he
        subst he
        exact ⟨[], ⟨.localSend (boundaryChanName opt.executableFileHash s.name),
          some e'⟩, by simp, callsOk_nil, rfl⟩
    | ok raw =>
      simp only [p4Loop, hcall]
      obtain ⟨nc', h1, h2, h3⟩ := ih _
      refine ⟨⟨.localSend (boundaryChanName opt.executableFileHash s.name),
          none⟩ :: nc', ?_, ?_, ?_⟩
      · rw [h1]
        simp
      · intro hh
        have hok := h2 hh
        intro c hc
        rcases List.mem_cons.mp hc with rfl | hc
        · rfl
        · exact hok c hc
      · intro e he
        obtain ⟨pre, c, heq, hpre, hc⟩ := h3 e he
        refine ⟨⟨.localSend (boundaryChanName opt.executableFileHash s.name),
            none⟩ :: pre, c, by simp [heq], ?_, hc⟩
        intro c' hc'
        rcases List.mem_cons.mp hc' with rfl | hc'
        · rfl
        · exact hpre c' hc'

/-- General call-log characterization of `connectInputsAndOutputs` for an
arbitrary (possibly failing) netchan oracle: wiring succeeds with all logged
resolution calls successful, or panics with the single failed call logged
last and nothing attempted after it. -/
theorem wiring_calls (orc : NetchanOracle) (opt : TaskOption)
    (fc : FlowContext)
    (ft : Task) (rest : List Task) (o : DatasetShard) (os : List DatasetShard)
    (hout : ft.outputs = o :: os)
    (lt : Task) (hlt : (ft :: rest).getLast? = some lt)
    (hchain : chainShape (ft :: rest))
    (hics : ft.inputs.length ≤ ft.inputChans.length)
    (n2l : List (String × String))
    (hparse : parseInputs opt.inputs = .ok n2l)
    (w : WState) :
    ∃ nc, (connectInputsAndOutputs orc opt fc (ft :: rest) w).1.calls
        = w.calls ++ nc
      ∧ ((connectInputsAndOutputs orc opt fc (ft :: rest) w).2 = none →
          callsOk nc)
      ∧ (∀ e, (connectInputsAndOutputs orc opt fc (ft :: rest) w).2 = some e →
          endsWithFailure nc e) := by
  have hcio : connectInputsAndOutputs orc opt fc (ft :: rest) w
      = bindW (connectExternalInputChannels orc opt fc (ft :: rest) w) (fun w1 =>
        bindW (connectExternalInputs orc opt fc n2l (ft :: rest) w1) (fun w2 =>
        bindW (connectInternalInputsAndOutputs (ft :: rest) w2) (fun w3 =>
        connectExternalOutputs orc opt (ft :: rest) w3))) := by
    rw [connectInputsAndOutputs, hparse]
  rw [hcio]
  by_cases hin : ft.inputs = []
  case pos =>
    have hph1 : connectExternalInputChannels orc opt fc (ft :: rest) w
        = p1Loop orc opt fc o.parent (List.range o.parent.externalInputChans) w := by
      simp [connectExternalInputChannels, hin, hout]
    rw [hph1]
    obtain ⟨nc1, g1, g2, g3⟩ :=
      p1Loop_calls orc opt fc o.parent (List.range o.parent.externalInputChans) w
    cases hp1 : p1Loop orc opt fc o.parent (List.range o.parent.externalInputChans) w with
    | mk w1 e1 =>
    rw [hp1] at g1 g2 g3
    simp only at g1 g2 g3
    cases e1 with
    | some e1' =>
      rw [bindW_of_some _ rfl]
      refine ⟨nc1, g1, ?_, ?_⟩
      · intro hh
        simp at hh
      · intro e he
        simp only at he
        cases he
        exact g3 _ rfl
    | none =>
      rw [bindW_of_none _ rfl]
      simp only
      have hph2 : connectExternalInputs orc opt fc n2l (ft :: rest) w1
          = (w1, none) := by
        simp [connectExternalInputs, hin, p2Loop]
      rw [hph2, bindW_of_none _ rfl]
      simp only
      obtain ⟨h3a, h3b, h3c, h3d⟩ := p3Loop_ok (ft :: rest) 0 w1 hchain
      cases hp3 : p3Loop 0 (ft :: rest) w1 with
      | mk w3 e3 =>
      rw [hp3] at h3a h3b h3c h3d
      simp only at h3a h3b h3c h3d
      subst h3a
      rw [connectInternalInputsAndOutputs, hp3, bindW_of_none _ rfl]
      simp only
      have hph4 : connectExternalOutputs orc opt (ft :: rest) w3
          = p4Loop orc opt lt.outputs w3 := by
        simp [connectExternalOutputs, hlt]
      rw [hph4]
      obtain ⟨nc4, k1, k2, k3⟩ := p4Loop_calls orc opt lt.outputs w3
      refine ⟨nc1 ++ nc4, ?_, ?_, ?_⟩
      · rw [k1, h3b, g1]
        simp [List.append_assoc]
      · intro hh
        exact callsOk_append (g2 rfl) (k2 hh)
      · intro e he
        exact endsWithFailure_append (g2 rfl) (k3 e he)
  case neg =>
    have hph1 : connectExternalInputChannels orc opt fc (ft :: rest) w
        = (w, none) := by
      simp [connectExternalInputChannels, hin]
    rw [hph1, bindW_of_none _ rfl]
    simp only
    have hph2 : connectExternalInputs orc opt fc n2l (ft :: rest) w
        = p2Loop orc opt fc n2l ft.inputChans 0 ft.inputs w := by
      simp [connectExternalInputs]
    rw [hph2]
    obtain ⟨nc2, g1, g2, g3⟩ :=
      p2Loop_calls orc opt fc n2l ft.inputChans ft.inputs 0 w
        (by simpa using hics)
    cases hp2 : p2Loop orc opt fc n2l ft.inputChans 0 ft.inputs w with
    | mk w2 e2 =>
    rw [hp2] at g1 g2 g3
    simp only at g1 g2 g3
    cases e2 with
    | some e2' =>
      rw [bindW_of_some _ rfl]
      refine ⟨nc2, g1, ?_, ?_⟩
      · intro hh
        simp at hh
      · intro e he
        simp only at he
        cases he
        exact g3 _ rfl
    | none =>
      rw [bindW_of_none _ rfl]
      simp only
      obtain ⟨h3a, h3b, h3c, h3d⟩ := p3Loop_ok (ft :: rest) 0 w2 hchain
      cases hp3 : p3Loop 0 (ft :: rest) w2 with
      | mk w3 e3 =>
      rw [hp3] at h3a h3b h3c h3d
      simp only at h3a h3b h3c h3d
      subst h3a
      rw [connectInternalInputsAndOutputs, hp3, bindW_of_none _ rfl]
      simp only
      have hph4 : connectExternalOutputs orc opt (ft :: rest) w3
          = p4Loop orc opt lt.outputs w3 := by
        simp [connectExternalOutputs, hlt]
      rw [hph4]
      obtain ⟨nc4, k1, k2, k3⟩ := p4Loop_calls orc opt lt.outputs w3
      refine ⟨nc2 ++ nc4, ?_, ?_, ?_⟩
      · rw [k1, h3b, g1]
        simp [List.append_assoc]
      · intro hh
        exact callsOk_append (g2 rfl) (k2 hh)
      · intro e he
        exact endsWithFailure_append (g2 rfl) (k3 e he)

/-! ### Claim C7 -/

/-- C7: during wiring of a well-shaped group, every endpoint resolution
(remote read, local read, or local write) that returns an error is fatal: the
wiring result is exactly the calls made so far, the failed call is logged
last with its cause, nothing is attempted after it (no retry, no salvage),
and wiring does not complete; conversely a completed wiring has only
successful resolution calls. -/
theorem c7_resolution_failure_is_fatal (orc : NetchanOracle)
    (opt : TaskOption) (fc : FlowContext)
    (ft : Task) (rest : List Task) (o : DatasetShard) (os : List DatasetShard)
    (hout : ft.outputs = o :: os)
    (lt : Task) (hlt : (ft :: rest).getLast? = some lt)
    (hchain : chainShape (ft :: rest))
    (hics : ft.inputs.length ≤ ft.inputChans.length)
    (n2l : List (String × String))
    (hparse : parseInputs opt.inputs = .ok n2l)
    (es : ExecutorStatus) :
    ∃ nc, (connectInputsAndOutputs orc opt fc (ft :: rest) (initW es)).1.calls = nc
      ∧ ((connectInputsAndOutputs orc opt fc (ft :: rest) (initW es)).2 = none →
          callsOk nc)
      ∧ (∀ e, (connectInputsAndOutputs orc opt fc (ft :: rest) (initW es)).2
            = some e → endsWithFailure nc e) := by
  obtain ⟨nc, h1, h2, h3⟩ := wiring_calls orc opt fc ft rest o os hout lt hlt
    hchain hics n2l hparse (initW es)
  refine ⟨nc, ?_, h2, h3⟩
  rw [h1]
  simp [initW]

/-- Witness for C7: with a failing local-send resolution, wiring of the
two-stage demo group has the characterized call log. -/
theorem c7_resolution_failure_is_fatal_witness :
    ∃ nc, (connectInputsAndOutputs failSendOracle optDemo fcDemo
        [taskA, taskB] (initW esEmpty)).1.calls = nc
      ∧ ((connectInputsAndOutputs failSendOracle optDemo fcDemo
          [taskA, taskB] (initW esEmpty)).2 = none → callsOk nc)
      ∧ (∀ e, (connectInputsAndOutputs failSendOracle optDemo fcDemo
          [taskA, taskB] (initW esEmpty)).2 = some e → endsWithFailure nc e) :=
  c7_resolution_failure_is_fatal failSendOracle optDemo fcDemo
    taskA [taskB] shardMid [] rfl taskB rfl
    ⟨by decide, by decide, trivial⟩ (by decide)
    [("h-in1", "loc1")] (by rfl) esEmpty

/-! ### Claim C3 -/

theorem stepInv {nWire nTasks : Nat} {s s' : CS}
    (hstep : Step nWire nTasks s s') (hinv : InvCS nWire nTasks s) :
    InvCS nWire nTasks s' := by
  obtain ⟨h1, h2, h3, h4, h5, h6, h7⟩ := hinv
  cases hstep with
  | tick =>
    refine ⟨h1, h2, h3, h4, ?_, h6, ?_⟩
    · intro a ha
      exact Nat.le_trans (h5 a ha) (Nat.le_succ _)
    · intro hstop
      obtain ⟨b, hb, hbn, hba⟩ := h7 hstop
      exact ⟨b, hb, Nat.le_trans hbn (Nat.le_succ _), hba⟩
  | recordStart h =>
    rw [h] at h1
    refine ⟨h1, h2, ?_, ?_, ?_, ?_, ?_⟩
    · intro hc
      simp at hc
    · intro _
      exact ⟨s.now, rfl⟩
    · intro a ha
      simp at ha ⊢
      omega
    · intro _
      exact h6 (by rw [h]; intro hc; cases hc)
    · intro hc
      simp at hc
  | wire h =>
    rw [h] at h1
    simp [regOf] at h1
    refine ⟨?_, ?_, ?_, ?_, h5, ?_, ?_⟩
    · simp [regOf, h1]
    · simp
      omega
    · intro hc
      simp at hc
    · intro _
      exact h4 (by rw [h]; intro hc; cases hc)
    · intro _
      exact h6 (by rw [h]; intro hc; cases hc)
    · intro hc
      simp at hc
  | launch h =>
    rw [h] at h1
    simp [regOf] at h1
    refine ⟨?_, ?_, ?_, ?_, h5, ?_, ?_⟩
    · simp [regOf, h1]
    · simp
      omega
    · intro hc
      simp at hc
    · intro _
      exact h4 (by rw [h]; intro hc; cases hc)
    · intro _
      exact h6 (by rw [h]; intro hc; cases hc)
    · intro hc
      simp at hc
  | unitFinish h =>
    refine ⟨h1, ?_, ?_, h4, h5, h6, ?_⟩
    · simp
      omega
    · intro hc
      have := h3 hc
      simp
      omega
    · intro hstop
      have := h3 (Or.inr hstop)
      omega
  | wait ha hb =>
    rw [ha] at h1
    refine ⟨?_, h2, ?_, ?_, h5, ?_, ?_⟩
    · simpa [regOf] using h1
    · intro _
      exact hb
    · intro _
      exact h4 (by rw [ha]; intro hc; cases hc)
    · intro _
      exact h6 (by rw [ha]; intro hc; cases hc)
    · intro hc
      simp at hc
  | recordStop h =>
    rw [h] at h1
    refine ⟨?_, h2, ?_, ?_, h5, ?_, ?_⟩
    · simpa [regOf] using h1
    · intro _
      exact h3 (Or.inl h)
    · intro _
      exact h4 (by rw [h]; intro hc; cases hc)
    · intro hc
      exact absurd rfl hc
    · intro _
      exact ⟨s.now, rfl, Nat.le_refl _, h5⟩

theorem reachable_inv {nWire nTasks n0 : Nat} {s : CS}
    (h : ReachableCS nWire nTasks n0 s) : InvCS nWire nTasks s := by
  induction h with
  | refl =>
    refine ⟨rfl, Nat.le_refl 0, fun _ => rfl, ?_, ?_, fun _ => rfl, ?_⟩
    · intro hc
      exact absurd rfl hc
    · intro a ha
      cases ha
    · intro hc
      cases hc
  | tail _ hstep ih => exact stepInv hstep ih

/-- C3: on the accepted path, `Run` records the start timestamp before any
unit is registered, waits on the single shared tracker that every
wiring-spawned unit and every stage goroutine registered with, and records
the stop timestamp only once all `nWire + nTasks` units have signaled
completion; hence in every reachable stopped state, the recorded stop
timestamp is at least the recorded start timestamp. -/
theorem c3_run_waits_for_all_units_stop_after_start (nWire nTasks n0 : Nat)
    (s : CS) (h : ReachableCS nWire nTasks n0 s) :
    (s.registered ≠ 0 → s.startTime.isSome)
    ∧ (s.pc = .stopped →
        s.finished = nWire + nTasks
        ∧ ∃ a b, s.startTime = some a ∧ s.stopTime = some b ∧ a ≤ b) := by
  obtain ⟨h1, h2, h3, h4, h5, h6, h7⟩ := reachable_inv h
  constructor
  · intro hr
    have hpc : s.pc ≠ .initial := by
      intro hini
      rw [hini] at h1
      exact hr (by simpa [regOf] using h1)
    obtain ⟨a, ha⟩ := h4 hpc
    simp [ha]
  · intro hstop
    obtain ⟨b, hb, _, hba⟩ := h7 hstop
    have hreg : s.registered = nWire + nTasks := by
      rw [h1, hstop]
      rfl
    refine ⟨by rw [h3 (Or.inr hstop), hreg], ?_⟩
    obtain ⟨a, ha⟩ := h4 (by rw [hstop]; intro hc; cases hc)
    exact ⟨a, b, ha, hb, hba a ha⟩

/-- Witness for C3: a concrete complete execution with one wiring-spawned
unit and one stage goroutine. -/
theorem c3_run_waits_for_all_units_stop_after_start_witness :
    ((⟨Pc.stopped, 0, some 0, some 0, 2, 2⟩ : CS).registered ≠ 0 →
      (⟨Pc.stopped, 0, some 0, some 0, 2, 2⟩ : CS).startTime.isSome)
    ∧ ((⟨Pc.stopped, 0, some 0, some 0, 2, 2⟩ : CS).pc = .stopped →
        (⟨Pc.stopped, 0, some 0, some 0, 2, 2⟩ : CS).finished = 1 + 1
        ∧ ∃ a b, (⟨Pc.stopped, 0, some 0, some 0, 2, 2⟩ : CS).startTime = some a
            ∧ (⟨Pc.stopped, 0, some 0, some 0, 2, 2⟩ : CS).stopTime = some b
            ∧ a ≤ b) := by
  apply c3_run_waits_for_all_units_stop_after_start 1 1 0
  refine Relation.ReflTransGen.head (Step.recordStart _ rfl) ?_
  refine Relation.ReflTransGen.head (Step.wire _ rfl) ?_
  refine Relation.ReflTransGen.head (Step.launch _ rfl) ?_
  refine Relation.ReflTransGen.head (Step.unitFinish _ (by decide)) ?_
  refine Relation.ReflTransGen.head (Step.unitFinish _ (by decide)) ?_
  refine Relation.ReflTransGen.head (Step.wait _ rfl (by decide)) ?_
  refine Relation.ReflTransGen.head (Step.recordStop _ rfl) ?_
  exact Relation.ReflTransGen.refl

end TaskRunner
